import Mathlib

/-!
Verification development for the libplacebo core: the Vulkan device-memory
sub-allocator (src/vulkan/malloc.c), the HDR tone-mapping generator
(src/tone_mapping.c) and the rendering-abstraction buffer layer (src/ra.c).

Machine integers (size_t, VkDeviceSize) are modelled as ℕ; the sizes involved
never approach 2^64, and the C code performs no intentional wraparound in the
modelled paths.  C floats are modelled as ℚ; the transcendental kernels
(powf, logf, sqrtf) are abstracted as parameters, so every theorem about the
float pipeline is quantified over them.
-/

namespace Libplacebo

/-! ## Sub-allocator: data model (struct vk_region / vk_slab, malloc.c) -/

/-- Allocator tuning constants from malloc.c. -/
def SLAB_GROWTH : ℕ := 4

/-- PLVK_HEAP_MINIMUM_SLAB_SIZE (1 MiB). -/
def MIN_SLAB : ℕ := 1 <<< 20

/-- PLVK_HEAP_MAXIMUM_SLAB_SIZE (256 MiB). -/
def MAX_SLAB : ℕ := 1 <<< 28

/-- PLVK_HEAP_MINIMUM_REGION_SIZE (1 KiB). -/
def MIN_REGION : ℕ := 1 <<< 10

/-- struct vk_region: a free range [start, stop).  The second field is named
`end` in the C source; `end` is a Lean keyword so it is called `stop` here. -/
structure VkRegion where
  start : ℕ
  stop : ℕ
deriving DecidableEq, Repr

/-- region_len. -/
def region_len (r : VkRegion) : ℕ := r.stop - r.start

/-- Modelled from the spec: PL_ALIGN from the utility header (not under src/)
rounds x up to the next multiple of align, with align = 0 meaning no
alignment ("fits after alignment" in the spec). -/
def PL_ALIGN (x align : ℕ) : ℕ :=
  if align = 0 then x else (x + align - 1) / align * align

/-- region_fits (malloc.c). -/
def region_fits (r : VkRegion) (size align : ℕ) : Bool :=
  PL_ALIGN r.start align + size ≤ r.stop

/-- struct vk_slab.  The device handles (VkDeviceMemory, VkBuffer, mapped
pointer, external handle) do not influence the free-space bookkeeping and are
omitted; the model keeps the fields the allocator logic reads and writes. -/
structure VkSlab where
  size : ℕ
  used : ℕ
  dedicated : Bool
  regions : List VkRegion
deriving DecidableEq, Repr

instance : Inhabited VkSlab := ⟨⟨0, 0, false, []⟩⟩

/-- Forward-coalescing loop inside insert_region: after the new region was
merged into the tail of an existing region r, keep absorbing following
regions while r.stop touches their start (the while loop over
TARRAY_REMOVE_AT). -/
def coalesce_forward (r : VkRegion) : List VkRegion → List VkRegion
  | [] => [r]
  | next :: rest =>
    if r.stop = next.start then coalesce_forward ⟨r.start, next.stop⟩ rest
    else r :: next :: rest

/-- The main scan of insert_region: walk the sorted region list and either
coalesce with a neighbour or insert in order.  `big` records whether the new
region reached MIN_REGION (computed once, used only on the plain-insert
paths, exactly as in the C code). -/
def insert_region_go (reg : VkRegion) (big : Bool) : List VkRegion → List VkRegion
  | [] => if big then [reg] else []
  | r :: rest =>
    if r.stop = reg.start then
      coalesce_forward ⟨r.start, reg.stop⟩ rest
    else if r.start = reg.stop then
      ⟨reg.start, r.stop⟩ :: rest
    else if reg.start < r.start then
      if big then reg :: r :: rest else r :: rest
    else
      r :: insert_region_go reg big rest

/-- insert_region (malloc.c): return a freed range to the free-space map,
coalescing with neighbours and discarding fresh fragments below
MIN_REGION. -/
def insert_region (regions : List VkRegion) (reg : VkRegion) : List VkRegion :=
  if reg.start = reg.stop then regions
  else insert_region_go reg (decide (MIN_REGION ≤ region_len reg)) regions

/-- The best-fit scan inside heap_get_region, over one slab.  The C loop
keeps the index `best` of the smallest fitting region seen so far and
compares lengths through `slab->regions[best]`; the accumulator here carries
that region value alongside its index, which is the same information. -/
def best_fit_aux (size align : ℕ) : ℕ → Option (ℕ × VkRegion) → List VkRegion →
    Option (ℕ × VkRegion)
  | _, best, [] => best
  | n, best, r :: rest =>
    let best' :=
      if region_fits r size align then
        match best with
        | some (b, br) => if region_len br < region_len r then some (b, br) else some (n, r)
        | none => some (n, r)
      else best
    best_fit_aux size align (n + 1) best' rest

/-- Best-fitting free region of one slab (index and value), or none. -/
def best_fit (regions : List VkRegion) (size align : ℕ) : Option (ℕ × VkRegion) :=
  best_fit_aux size align 0 none regions

/-- The slab loop of heap_get_region: skip slabs whose total size is below
the request, take the first slab with a best-fit region.  Returns the slab
index and region index. -/
def find_slab_fit (size align : ℕ) : ℕ → List VkSlab → Option (ℕ × ℕ)
  | _, [] => none
  | i, s :: rest =>
    if s.size < size then find_slab_fit size align (i + 1) rest
    else
      match best_fit s.regions size align with
      | some (n, _) => some (i, n)
      | none => find_slab_fit size align (i + 1) rest

/-- slab_alloc (malloc.c): a fresh slab with one free region spanning it.
The device-memory, buffer and export plumbing has no effect on the free-space
map and is not modelled; allocation is assumed to succeed. -/
def slab_alloc (size : ℕ) : VkSlab :=
  { size := size, used := 0, dedicated := false, regions := [⟨0, size⟩] }

/-- Size of the last slab in the heap, or 0 (the `slab ? slab->size : 0`
fallback: the loop variable holds the last slab visited). -/
def last_slab_size (heap : List VkSlab) : ℕ :=
  match heap.getLast? with
  | some s => s.size
  | none => 0

/-- Size of a freshly grown slab:
clamp(SLAB_GROWTH * max(size, last_slab.size), MIN_SLAB, MAX_SLAB). -/
def new_slab_size (heap : List VkSlab) (size : ℕ) : ℕ :=
  min MAX_SLAB (max MIN_SLAB (SLAB_GROWTH * max size (last_slab_size heap)))

/-- Result of heap_get_region: either a purpose-allocated dedicated slab
(not entered into the heap), or slab/region indices into the (possibly
grown) heap. -/
inductive HeapGet where
  | dedicated (slab : VkSlab)
  | inHeap (heap : List VkSlab) (slabIdx regIdx : ℕ)
deriving Repr

/-- heap_get_region (malloc.c).  Requests above MAX_SLAB get a dedicated
slab; otherwise the first slab of sufficient size holding a fitting region
is used, with best fit inside that slab; otherwise a new slab is appended
and its single region (index 0) returned. -/
def heap_get_region (heap : List VkSlab) (size align : ℕ) : HeapGet :=
  if MAX_SLAB < size then
    .dedicated { slab_alloc size with dedicated := true }
  else
    match find_slab_fit size align 0 heap with
    | some (i, n) => .inHeap heap i n
    | none => .inHeap (heap ++ [slab_alloc (new_slab_size heap size)]) heap.length 0

/-- The carving step of slice_heap on the chosen slab: remove region `n`,
cut [offset, offset + size) at the aligned start, reinsert the two remainder
ranges through insert_region, and account the bytes in `used`.  Returns the
updated slab and the slice offset. -/
def carve_slab (slab : VkSlab) (n size align : ℕ) : VkSlab × ℕ :=
  let reg := (slab.regions[n]?).getD ⟨0, 0⟩
  let offset := PL_ALIGN reg.start align
  let rs := slab.regions.eraseIdx n
  let rs := insert_region rs ⟨reg.start, offset⟩
  let rs := insert_region rs ⟨offset + size, reg.stop⟩
  ({ slab with regions := rs, used := slab.used + size }, offset)

/-- Where a returned slice lives: inside the heap (slab index), or on a
dedicated slab that was never entered into the heap. -/
inductive SliceTarget where
  | heapSlab (i : ℕ)
  | dedicated (slab : VkSlab)
deriving Repr, DecidableEq

/-- struct vk_memslice (offset, size and the owning slab). -/
structure MemSlice where
  target : SliceTarget
  offset : ℕ
  size : ℕ
deriving Repr, DecidableEq

/-- In-place update of the i-th list element (the C code mutates the slab
through a pointer into the heap array). -/
def modify_idx (f : VkSlab → VkSlab) : ℕ → List VkSlab → List VkSlab
  | _, [] => []
  | 0, s :: rest => f s :: rest
  | n + 1, s :: rest => s :: modify_idx f n rest

/-- slice_heap (malloc.c): effective alignment is
lcm(alignment, bufferImageGranularity); find a region via heap_get_region
and carve the slice out of it. -/
def slice_heap (heap : List VkSlab) (size alignment granularity : ℕ) :
    List VkSlab × MemSlice :=
  let align := Nat.lcm alignment granularity
  match heap_get_region heap size align with
  | .dedicated slab =>
    let (slab', offset) := carve_slab slab 0 size align
    (heap, { target := .dedicated slab', offset := offset, size := size })
  | .inHeap heap' i n =>
    let s := (heap'[i]?).getD default
    let (s', offset) := carve_slab s n size align
    (heap'.set i s', { target := .heapSlab i, offset := offset, size := size })

/-- vk_free_memslice (malloc.c).  A dedicated slab is freed outright
(second component `true` reports the slab destruction); otherwise the range
is returned to the free-space map and `used` decremented. -/
def vk_free_memslice (heap : List VkSlab) (slice : MemSlice) : List VkSlab × Bool :=
  match slice.target with
  | .dedicated _ => (heap, true)
  | .heapSlab i =>
    (modify_idx (fun s =>
      { s with used := s.used - slice.size,
               regions := insert_region s.regions ⟨slice.offset, slice.offset + slice.size⟩ })
      i heap, false)

/-! ## Tone mapping: scaling conversions and curve registry (tone_mapping.c)

C floats become ℚ.  powf, logf and sqrtf are transcendental and have no
exact rational counterpart; they are carried as an abstract `MathOps`
record, so the structural theorems below hold for every interpretation of
those kernels. -/

/-- Abstracted float kernels used by tone_mapping.c. -/
structure MathOps where
  powf : ℚ → ℚ → ℚ
  logf : ℚ → ℚ
  sqrtf : ℚ → ℚ

/-- Modelled from the spec: enum pl_hdr_scaling (public header not under
src/) — NORM, SQRT, NITS, PQ, with NORM listed first (the zero value used
for curve records that leave `.scaling` unset). -/
inductive Scaling where
  | NORM
  | SQRT
  | NITS
  | PQ
deriving DecidableEq, Repr

/-- Modelled from the spec: PL_COLOR_SDR_WHITE — nits of SDR white; the
spec fixes nits↔norm conversion as division by 203. -/
def PL_COLOR_SDR_WHITE : ℚ := 203

def PQ_M1 : ℚ := 2610 / 4096 * (1 / 4)
def PQ_M2 : ℚ := 2523 / 4096 * 128
def PQ_C1 : ℚ := 3424 / 4096
def PQ_C2 : ℚ := 2413 / 4096 * 32
def PQ_C3 : ℚ := 2392 / 4096 * 32

/-- pl_hdr_rescale (tone_mapping.c): identity when the scalings agree or the
value is zero; otherwise normalize the input to NORM (the switch with
fall-through PQ → NITS → NORM) and re-emit in the target scaling. -/
def pl_hdr_rescale (ops : MathOps) (f t : Scaling) (x : ℚ) : ℚ :=
  if f = t then x
  else if x = 0 then x
  else
    let n : ℚ :=
      match f with
      | .PQ =>
        let x := ops.powf x (1 / PQ_M2)
        let x := max (x - PQ_C1) 0 / (PQ_C2 - PQ_C3 * x)
        let x := ops.powf x (1 / PQ_M1)
        x * 10000 / PL_COLOR_SDR_WHITE
      | .NITS => x / PL_COLOR_SDR_WHITE
      | .NORM => x
      | .SQRT => x * x
    match t with
    | .NORM => n
    | .SQRT => ops.sqrtf n
    | .NITS => n * PL_COLOR_SDR_WHITE
    | .PQ =>
      let y := n * (PL_COLOR_SDR_WHITE / 10000)
      let y := ops.powf y PQ_M1
      let y := (PQ_C1 + PQ_C2 * y) / (1 + PQ_C3 * y)
      ops.powf y PQ_M2

/-- The tone-map functions of the registry pl_tone_map_functions. -/
inductive TMFun where
  | auto
  | clip
  | bt2390
  | bt2446a
  | spline
  | reinhard
  | mobius
  | hable
  | gamma
  | linear
deriving DecidableEq, Repr

/-- struct pl_tone_map_params.  `function` is a nullable pointer in C;
`none` models NULL. -/
structure ToneMapParams where
  function : Option TMFun
  param : ℚ
  input_scaling : Scaling
  output_scaling : Scaling
  lut_size : ℕ
  input_min : ℚ
  input_max : ℚ
  output_min : ℚ
  output_max : ℚ
deriving DecidableEq, Repr

/-- Modelled from the spec: PL_CLAMP from the utility header (not under
src/), (x) < (l) ? (l) : (x) > (h) ? (h) : (x). -/
def PL_CLAMP (x l h : ℚ) : ℚ :=
  if x < l then l else if h < x then h else x

/-- Modelled from the spec: PL_MIX — lerp(a, b, t), used for the evenly
spaced LUT input grid. -/
def PL_MIX (a b t : ℚ) : ℚ := a + t * (b - a)

/-- rescale_in (tone_mapping.c). -/
def rescale_in (x : ℚ) (p : ToneMapParams) : ℚ :=
  (x - p.input_min) / (p.input_max - p.input_min)

/-- rescale (tone_mapping.c). -/
def rescale (x : ℚ) (p : ToneMapParams) : ℚ :=
  (x - p.input_min) / (p.output_max - p.output_min)

/-- rescale_out (tone_mapping.c). -/
def rescale_out (x : ℚ) (p : ToneMapParams) : ℚ :=
  x * (p.output_max - p.output_min) + p.output_min

/-- bt1886_eotf (tone_mapping.c). -/
def bt1886_eotf (ops : MathOps) (x mn mx : ℚ) : ℚ :=
  let lb := ops.powf mn (1 / 2.4)
  let lw := ops.powf mx (1 / 2.4)
  ops.powf ((lw - lb) * x + lb) 2.4

/-- bt1886_oetf (tone_mapping.c). -/
def bt1886_oetf (ops : MathOps) (x mn mx : ℚ) : ℚ :=
  let lb := ops.powf mn (1 / 2.4)
  let lw := ops.powf mx (1 / 2.4)
  (ops.powf x (1 / 2.4) - lb) / (lw - lb)

/-- The bt2390 map body (per LUT element; FOREACH_LUT is elementwise). -/
def tm_bt2390 (ops : MathOps) (p : ToneMapParams) (x0 : ℚ) : ℚ :=
  let minLum := rescale_in p.output_min p
  let maxLum := rescale_in p.output_max p
  let offset := p.param
  let ks := (1 + offset) * maxLum - offset
  let bp := if 0 < minLum then min (1 / minLum) 4 else 4
  let gain_inv := 1 + minLum / maxLum * ops.powf (1 - maxLum) bp
  let gain := if maxLum < 1 then 1 / gain_inv else 1
  let x := rescale_in x0 p
  let x :=
    if ks < 1 then
      let tb := (x - ks) / (1 - ks)
      let tb2 := tb * tb
      let tb3 := tb2 * tb
      let pb := (2 * tb3 - 3 * tb2 + 1) * ks + (tb3 - 2 * tb2 + tb) * (1 - ks) +
                (-2 * tb3 + 3 * tb2) * maxLum
      if x < ks then x else pb
    else x
  let x :=
    if x < 1 then
      let x := x + minLum * ops.powf (1 - x) bp
      gain * (x - minLum) + minLum
    else x
  x * (p.input_max - p.input_min) + p.input_min

/-- The bt2446a map body (per LUT element). -/
def tm_bt2446a (ops : MathOps) (p : ToneMapParams) (x0 : ℚ) : ℚ :=
  let phdr := 1 + 32 * ops.powf (p.input_max / 10000) (1 / 2.4)
  let psdr := 1 + 32 * ops.powf (p.output_max / 10000) (1 / 2.4)
  let x := ops.powf (rescale_in x0 p) (1 / 2.4)
  let x := ops.logf (1 + (phdr - 1) * x) / ops.logf phdr
  let x :=
    if x ≤ 0.7399 then 1.0770 * x
    else if x < 0.9909 then (-1.1510 * x + 2.7811) * x - 0.6302
    else 0.5 * x + 0.5
  let x := (ops.powf psdr x - 1) / (psdr - 1)
  bt1886_eotf ops x p.output_min p.output_max

/-- The bt2446a_inv map body (per LUT element). -/
def tm_bt2446a_inv (ops : MathOps) (p : ToneMapParams) (x0 : ℚ) : ℚ :=
  let x := bt1886_oetf ops x0 p.input_min p.input_max
  let x := x * 255
  let x :=
    if 70 < x then ops.powf x ((2.8305e-6 * x - 7.4622e-4) * x + 1.2528)
    else ops.powf x ((1.8712e-5 * x - 2.7334e-3) * x + 1.3141)
  let x := ops.powf (x / 1000) 2.4
  rescale_out x p

/-- The spline map body (per LUT element); used for forward and inverse. -/
def tm_spline (p : ToneMapParams) (x0 : ℚ) : ℚ :=
  let pivot := p.param
  let in_min := p.input_min - pivot
  let in_max := p.input_max - pivot
  let out_min := p.output_min - pivot
  let out_max := p.output_max - pivot
  let Pa := (out_min - in_min) / (in_min * in_min)
  let t := 2 * in_max * in_max
  let Qa := (in_max - out_max) / (in_max * t)
  let Qb := -3 * (in_max - out_max) / t
  let x := x0 - pivot
  let x := if 0 < x then ((Qa * x + Qb) * x + 1) * x else (Pa * x + 1) * x
  x + pivot

/-- The reinhard map body (per LUT element). -/
def tm_reinhard (p : ToneMapParams) (x0 : ℚ) : ℚ :=
  let peak := rescale p.input_max p
  let contrast := p.param
  let offset := (1 - contrast) / contrast
  let scale := (peak + offset) / peak
  let x := rescale x0 p
  let x := x / (x + offset)
  let x := x * scale
  rescale_out x p

/-- The mobius map body (per LUT element). -/
def tm_mobius (p : ToneMapParams) (x0 : ℚ) : ℚ :=
  let peak := rescale p.input_max p
  let j := p.param
  let a := -(j * j) * (peak - 1) / (j * j - 2 * j + peak)
  let b := (j * j - 2 * j * peak + peak) / max 1e-6 (peak - 1)
  let scale := (b * b + 2 * b * j + j * j) / (b - a)
  let x := rescale x0 p
  let x := if x ≤ j then x else scale * (x + a) / (x + b)
  rescale_out x p

/-- hable (tone_mapping.c) — the rational filmic kernel. -/
def hable_kernel (x : ℚ) : ℚ :=
  let A : ℚ := 0.15
  let B : ℚ := 0.50
  let C : ℚ := 0.10
  let D : ℚ := 0.20
  let E : ℚ := 0.02
  let F : ℚ := 0.30
  (x * (A * x + C * B) + D * E) / (x * (A * x + B) + D * F) - E / F

/-- The hable_map body (per LUT element). -/
def tm_hable (ops : MathOps) (p : ToneMapParams) (x0 : ℚ) : ℚ :=
  let peak := p.input_max / p.output_max
  let scale := 1 / hable_kernel peak
  let x := bt1886_oetf ops x0 p.input_min p.input_max
  let x := bt1886_eotf ops x 0 peak
  let x := scale * hable_kernel x
  let x := bt1886_oetf ops x 0 1
  bt1886_eotf ops x p.output_min p.output_max

/-- The gamma_map body (per LUT element). -/
def tm_gamma (ops : MathOps) (p : ToneMapParams) (x0 : ℚ) : ℚ :=
  let peak := rescale p.input_max p
  let cutoff := p.param
  let g := ops.logf cutoff / ops.logf (cutoff / peak)
  let x := rescale x0 p
  let x := if cutoff < x then ops.powf (x / peak) g else x
  rescale_out x p

/-- The linear map body (per LUT element); used for forward and inverse. -/
def tm_linear (p : ToneMapParams) (x0 : ℚ) : ℚ :=
  let gain := p.param
  let x := rescale_in x0 p
  let x := x * gain
  rescale_out x p

/-- Native scaling of each registry entry (records that leave `.scaling`
unset get the zero enumerator, NORM). -/
def TMFun.scaling : TMFun → Scaling
  | .auto => .NORM
  | .clip => .NORM
  | .bt2390 => .PQ
  | .bt2446a => .NITS
  | .spline => .PQ
  | .reinhard => .NORM
  | .mobius => .NORM
  | .hable => .NORM
  | .gamma => .NORM
  | .linear => .PQ

def TMFun.param_min : TMFun → ℚ
  | .bt2390 => 0.50
  | .spline => 0.15
  | .reinhard => 0.001
  | .mobius => 0.00
  | .gamma => 0.001
  | .linear => 0.001
  | _ => 0

def TMFun.param_def : TMFun → ℚ
  | .bt2390 => 1.00
  | .spline => 0.30
  | .reinhard => 0.50
  | .mobius => 0.30
  | .gamma => 0.50
  | .linear => 1.00
  | _ => 0

def TMFun.param_max : TMFun → ℚ
  | .bt2390 => 2.00
  | .spline => 0.50
  | .reinhard => 0.99
  | .mobius => 0.99
  | .gamma => 1.00
  | .linear => 10.0
  | _ => 0

/-- The `.map` entry of each registry record (none for pl_tone_map_auto,
which has no implementation; noop for clip). -/
def TMFun.map : TMFun → Option (MathOps → ToneMapParams → ℚ → ℚ)
  | .auto => none
  | .clip => some fun _ _ x => x
  | .bt2390 => some tm_bt2390
  | .bt2446a => some tm_bt2446a
  | .spline => some fun _ => tm_spline
  | .reinhard => some fun _ => tm_reinhard
  | .mobius => some fun _ => tm_mobius
  | .hable => some tm_hable
  | .gamma => some tm_gamma
  | .linear => some fun _ => tm_linear

/-- The `.map_inverse` entry of each registry record (NULL becomes none). -/
def TMFun.map_inverse : TMFun → Option (MathOps → ToneMapParams → ℚ → ℚ)
  | .clip => some fun _ _ x => x
  | .bt2446a => some tm_bt2446a_inv
  | .spline => some fun _ => tm_spline
  | .linear => some fun _ => tm_linear
  | _ => none

/-- Reading `params->function` where the pipeline dereferences it; every
such read happens on fix_params output, whose function field is non-NULL
(fix_params_function below), so the clip fallback is never taken. -/
def fnOf (p : ToneMapParams) : TMFun := p.function.getD .clip

/-- The if/else chain of fix_params that resolves pl_tone_map_auto from the
luminance quotient src_max / dst_max. -/
def auto_curve (q : ℚ) : TMFun :=
  if 10 < q then .spline
  else if 2 < max q (1 / q) then .bt2446a
  else if q < 1 then .spline
  else .bt2390

/-- The local variables `fun` and `param` of fix_params: default the curve
to clip (PL_DEF on the NULL pointer) and the parameter to the curve default
(PL_DEF on the float, where 0 means unset), then resolve the auto curve from
the NORM-scaling luminance quotient src_max / dst_max. -/
def fix_params_choice (ops : MathOps) (p : ToneMapParams) : TMFun × ℚ :=
  let fun0 := p.function.getD .clip
  let param0 := if p.param = 0 then fun0.param_def else p.param
  if fun0 = .auto then
    let src_max := pl_hdr_rescale ops p.input_scaling .NORM p.input_max
    let dst_max := pl_hdr_rescale ops p.output_scaling .NORM p.output_max
    let f := auto_curve (src_max / dst_max)
    (f, f.param_def)
  else (fun0, param0)

/-- fix_params (tone_mapping.c): resolve the curve and parameter, clamp the
parameter to the curve range, and convert the endpoints to the native
scaling of the curve. -/
def fix_params (ops : MathOps) (p : ToneMapParams) : ToneMapParams :=
  let fp := fix_params_choice ops p
  { function := some fp.1,
    param := PL_CLAMP fp.2 fp.1.param_min fp.1.param_max,
    lut_size := p.lut_size,
    input_scaling := fp.1.scaling,
    output_scaling := fp.1.scaling,
    input_min := pl_hdr_rescale ops p.input_scaling fp.1.scaling p.input_min,
    input_max := pl_hdr_rescale ops p.input_scaling fp.1.scaling p.input_max,
    output_min := pl_hdr_rescale ops p.output_scaling fp.1.scaling p.output_min,
    output_max := pl_hdr_rescale ops p.output_scaling fp.1.scaling p.output_max }

/-- map_lut on a single value (every map in the registry is elementwise over
the LUT, so map_lut is List.map of this).  The identity fallback on a
missing forward map is dead code: only pl_tone_map_auto lacks a map and
fix_params never returns it. -/
def map_lut1 (ops : MathOps) (p : ToneMapParams) (x : ℚ) : ℚ :=
  if p.input_max + 1e-4 < p.output_max then
    match (fnOf p).map_inverse with
    | some inv => inv ops p x
    | none =>
      let x := x - p.input_min
      let x := x * ((p.input_max - p.output_min) / (p.input_max - p.input_min))
      x + p.output_min
  else
    match (fnOf p).map with
    | some m => m ops p x
    | none => x

/-- map_lut (tone_mapping.c). -/
def map_lut (ops : MathOps) (p : ToneMapParams) (lut : List ℚ) : List ℚ :=
  lut.map (map_lut1 ops p)

/-- The first loop of pl_tone_map_generate: lut_size values evenly spaced
over [input_min, input_max] in the callers input scaling, converted to the
given curve scaling. -/
def input_grid (ops : MathOps) (p : ToneMapParams) (s : Scaling) : List ℚ :=
  (List.range p.lut_size).map fun i =>
    let x : ℚ := (i : ℚ) / ((p.lut_size : ℚ) - 1)
    let x := PL_MIX p.input_min p.input_max x
    pl_hdr_rescale ops p.input_scaling s x

/-- pl_tone_map_generate (tone_mapping.c). -/
def pl_tone_map_generate (ops : MathOps) (p : ToneMapParams) : List ℚ :=
  let fixed := fix_params ops p
  let out := input_grid ops p (fnOf fixed).scaling
  let out := map_lut ops fixed out
  out.map fun x =>
    pl_hdr_rescale ops (fnOf fixed).scaling p.output_scaling
      (PL_CLAMP x fixed.output_min fixed.output_max)

/-- pl_tone_map_sample (tone_mapping.c). -/
def pl_tone_map_sample (ops : MathOps) (x : ℚ) (p : ToneMapParams) : ℚ :=
  let fixed := fix_params ops p
  let fixed := { fixed with lut_size := 1 }
  let x := PL_CLAMP x p.input_min p.input_max
  let x := pl_hdr_rescale ops p.input_scaling (fnOf fixed).scaling x
  let x := map_lut1 ops fixed x
  let x := PL_CLAMP x fixed.output_min fixed.output_max
  pl_hdr_rescale ops (fnOf fixed).scaling p.output_scaling x

/-! ## RA buffers and the buffer pool (ra.c)

The backend is the function table `ra->impl`; its buf_create and buf_poll
entries are abstracted as parameters.  Asserts are the fatal validation
checks of the RA (spec section 7), so a computation either ends fatally (a
failed assert, or undefined behaviour such as reading a field through a
NULL pointer) or returns its value. -/

/-- Outcome of an RA call: `fatal` is a tripped assert or undefined
behaviour, `ok` is a normal return. -/
inductive RaResult (α : Type) where
  | fatal
  | ok (val : α)
deriving DecidableEq, Repr

/-- enum ra_buf_type. -/
inductive RaBufType where
  | tex_transfer
  | uniform
  | storage
deriving DecidableEq, Repr

/-- struct ra_buf_params (the fields the modelled paths read).
`initial_data` is a nullable pointer in C; the model keeps only whether it
is set. -/
structure RaBufParams where
  type : RaBufType
  size : ℕ
  host_mapped : Bool
  host_writable : Bool
  host_readable : Bool
  initial_data : Bool
deriving DecidableEq, Repr

/-- A backend buffer: an identity plus whether `buf->data` is non-NULL. -/
structure RaBuf where
  id : ℕ
  data : Bool
deriving DecidableEq, Repr

/-- The buffer-size limits of struct ra_limits. -/
structure RaLimits where
  max_xfer_size : ℕ
  max_ubo_size : ℕ
  max_ssbo_size : ℕ
deriving DecidableEq, Repr

/-- ra_buf_create (ra.c).  The per-type limit asserts run first; then the
backend entry point is called, and the result is fed to
assert(buf->data || !params->host_mapped).  When the backend returns NULL
that assert dereferences the NULL pointer, which is fatal — the function
never reaches `return buf` with a NULL buf. -/
def ra_buf_create (limits : RaLimits) (buf_create_impl : RaBufParams → Option RaBuf)
    (params : RaBufParams) : RaResult (Option RaBuf) :=
  let sizeOk : Bool :=
    match params.type with
    | .tex_transfer => limits.max_xfer_size ≠ 0 && params.size ≤ limits.max_xfer_size
    | .uniform => limits.max_ubo_size ≠ 0 && params.size ≤ limits.max_ubo_size
    | .storage => limits.max_ssbo_size ≠ 0 && params.size ≤ limits.max_ssbo_size
  if !sizeOk then .fatal
  else
    match buf_create_impl params with
    | none => .fatal
    | some buf => if !buf.data && params.host_mapped then .fatal else .ok (some buf)

/-- ra_buf_poll (ra.c): false when the backend has no buf_poll entry. -/
def ra_buf_poll (buf_poll_impl : Option (RaBuf → ℕ → Bool)) (buf : RaBuf) (t : ℕ) : Bool :=
  match buf_poll_impl with
  | some p => p buf t
  | none => false

/-- struct ra_buf_pool. -/
structure RaBufPool where
  current_params : RaBufParams
  buffers : List RaBuf
  index : ℕ
deriving DecidableEq, Repr

/-- TARRAY_INSERT_AT, modelled from the spec: insert at an index, appending
when the index reaches the end (the pool only calls it with index ≤ length). -/
def insertAt : ℕ → RaBuf → List RaBuf → List RaBuf
  | _, a, [] => [a]
  | 0, a, x :: l => a :: x :: l
  | n + 1, a, x :: l => x :: insertAt n a l

/-- ra_buf_params_compatible (ra.c). -/
def ra_buf_params_compatible (nw old : RaBufParams) : Bool :=
  nw.type = old.type && nw.size ≤ old.size &&
  nw.host_mapped = old.host_mapped &&
  nw.host_writable = old.host_writable &&
  nw.host_readable = old.host_readable

/-- ra_buf_pool_uninit (ra.c): destroy every buffer and zero the struct. -/
def ra_buf_pool_uninit : RaBufPool :=
  { current_params :=
      { type := .tex_transfer, size := 0, host_mapped := false,
        host_writable := false, host_readable := false, initial_data := false },
    buffers := [], index := 0 }

/-- ra_buf_pool_grow (ra.c): create one more buffer with the pool params and
insert it at the cursor; false when the device refuses. -/
def ra_buf_pool_grow (limits : RaLimits) (buf_create_impl : RaBufParams → Option RaBuf)
    (pool : RaBufPool) : RaResult (Bool × RaBufPool) :=
  match ra_buf_create limits buf_create_impl pool.current_params with
  | .fatal => .fatal
  | .ok none => .ok (false, pool)
  | .ok (some buf) =>
    .ok (true, { pool with buffers := insertAt pool.index buf pool.buffers })

/-- The tail of ra_buf_pool_get after at least one buffer exists: poll the
buffer at the cursor with zero timeout, growing once more if it is busy,
then return the buffer at the cursor and advance the cursor modulo the pool
size. -/
def ra_buf_pool_get_avail (limits : RaLimits) (buf_create_impl : RaBufParams → Option RaBuf)
    (buf_poll_impl : Option (RaBuf → ℕ → Bool)) (pool : RaBufPool) :
    RaResult (Option (RaBuf × RaBufPool)) :=
  let finish : RaBufPool → RaResult (Option (RaBuf × RaBufPool)) := fun pool =>
    .ok (some (pool.buffers.getD pool.index ⟨0, false⟩,
               { pool with index := (pool.index + 1) % pool.buffers.length }))
  if ra_buf_poll buf_poll_impl (pool.buffers.getD pool.index ⟨0, false⟩) 0 then
    match ra_buf_pool_grow limits buf_create_impl pool with
    | .fatal => .fatal
    | .ok (false, _) => .ok none
    | .ok (true, pool') => finish pool'
  else finish pool

/-- ra_buf_pool_get (ra.c). -/
def ra_buf_pool_get (limits : RaLimits) (buf_create_impl : RaBufParams → Option RaBuf)
    (buf_poll_impl : Option (RaBuf → ℕ → Bool)) (pool : RaBufPool)
    (params : RaBufParams) : RaResult (Option (RaBuf × RaBufPool)) :=
  if params.initial_data then .fatal
  else
    let pool :=
      if ¬ ra_buf_params_compatible params pool.current_params then
        { ra_buf_pool_uninit with current_params := params }
      else pool
    if pool.buffers.isEmpty then
      match ra_buf_pool_grow limits buf_create_impl pool with
      | .fatal => .fatal
      | .ok (false, _) => .ok none
      | .ok (true, pool') => ra_buf_pool_get_avail limits buf_create_impl buf_poll_impl pool'
    else ra_buf_pool_get_avail limits buf_create_impl buf_poll_impl pool

/-! ## Free-space map invariant (claim C2 machinery)

`chainI b l` says the region list l is strictly ordered with gaps: every
region is nonempty, starts strictly above the bound b, and each region ends
strictly before the next one starts (ordered, disjoint, never adjacent).
The initial bound -1 places no constraint on the first region. -/

def inReg (x : ℕ) (r : VkRegion) : Prop := r.start ≤ x ∧ x < r.stop

instance (x : ℕ) (r : VkRegion) : Decidable (inReg x r) := by
  unfold inReg; infer_instance

/-- Some region of l contains the offset x. -/
def covers (l : List VkRegion) (x : ℕ) : Prop := ∃ r ∈ l, inReg x r

/-- Two ranges share no offset. -/
def PtDisj (a b : VkRegion) : Prop := ∀ x : ℕ, inReg x a → inReg x b → False

def chainI : ℤ → List VkRegion → Prop
  | _, [] => True
  | b, r :: rest => b < (r.start : ℤ) ∧ r.start < r.stop ∧ chainI (r.stop : ℤ) rest

theorem chainI_mono : ∀ (l : List VkRegion) {b b' : ℤ}, b' ≤ b → chainI b l → chainI b' l
  | [], _, _, _, h => h
  | _ :: _, _, _, hle, ⟨h1, h2, h3⟩ => ⟨lt_of_le_of_lt hle h1, h2, h3⟩

theorem ptdisj_intervals {a b : VkRegion} (ha : a.start < a.stop) (hb : b.start < b.stop)
    (h : PtDisj a b) : a.stop ≤ b.start ∨ b.stop ≤ a.start := by
  by_contra hcon
  push_neg at hcon
  exact h (max a.start b.start)
    ⟨le_max_left _ _, max_lt ha hcon.1⟩
    ⟨le_max_right _ _, max_lt hcon.2 hb⟩

theorem ptdisj_symm {a b : VkRegion} (h : PtDisj a b) : PtDisj b a :=
  fun x hb ha => h x ha hb

theorem chainI_coalesce : ∀ (rest : List VkRegion) (r : VkRegion) (b : ℤ),
    b < (r.start : ℤ) → r.start < r.stop → chainI ((r.stop : ℤ) - 1) rest →
    chainI b (coalesce_forward r rest)
  | [], r, b, h1, h2, _ => ⟨h1, h2, trivial⟩
  | next :: rest, r, b, h1, h2, hc => by
    obtain ⟨hb, hn, hrest⟩ := hc
    unfold coalesce_forward
    by_cases he : r.stop = next.start
    · rw [if_pos he]
      refine chainI_coalesce rest ⟨r.start, next.stop⟩ b h1 ?_ ?_
      · show r.start < next.stop
        omega
      · exact chainI_mono rest (by show (next.stop : ℤ) - 1 ≤ (next.stop : ℤ); omega) hrest
    · rw [if_neg he]
      exact ⟨h1, h2, ⟨by omega, hn, hrest⟩⟩

theorem chainI_go (reg : VkRegion) (big : Bool) :
    ∀ (l : List VkRegion) (b : ℤ), chainI b l → b < (reg.start : ℤ) →
      reg.start < reg.stop → (∀ s ∈ l, PtDisj reg s) →
      chainI b (insert_region_go reg big l)
  | [], b, _, h2, h3, _ => by
    unfold insert_region_go
    cases big
    · exact trivial
    · exact ⟨h2, h3, trivial⟩
  | r :: rest, b, ⟨hb, hr, hrest⟩, h2, h3, hdis => by
    have hdr : PtDisj reg r := hdis r (List.mem_cons_self r rest)
    have hsep : reg.stop ≤ r.start ∨ r.stop ≤ reg.start := ptdisj_intervals h3 hr hdr
    unfold insert_region_go
    by_cases e1 : r.stop = reg.start
    · rw [if_pos e1]
      apply chainI_coalesce rest ⟨r.start, reg.stop⟩ b hb (by show r.start < reg.stop; omega)
      cases rest with
      | nil => exact trivial
      | cons next rest' =>
        obtain ⟨hb2, hn2, hrest2⟩ := hrest
        have hdn : PtDisj reg next := hdis next (List.mem_cons_of_mem r (List.mem_cons_self _ _))
        have hsep2 : reg.stop ≤ next.start ∨ next.stop ≤ reg.start :=
          ptdisj_intervals h3 hn2 hdn
        exact ⟨by show (reg.stop : ℤ) - 1 < (next.start : ℤ); omega, hn2, hrest2⟩
    · rw [if_neg e1]
      by_cases e2 : r.start = reg.stop
      · rw [if_pos e2]
        exact ⟨h2, by show reg.start < r.stop; omega, hrest⟩
      · rw [if_neg e2]
        by_cases e3 : reg.start < r.start
        · rw [if_pos e3]
          have hlt : reg.stop < r.start := by omega
          cases big
          · exact ⟨hb, hr, hrest⟩
          · exact ⟨h2, h3, ⟨by omega, hr, hrest⟩⟩
        · rw [if_neg e3]
          refine ⟨hb, hr, ?_⟩
          exact chainI_go reg big rest r.stop hrest (by omega) h3
            (fun s hs => hdis s (List.mem_cons_of_mem r hs))

theorem chainI_insert_region {l : List VkRegion} {b : ℤ} {reg : VkRegion}
    (hl : chainI b l) (hb : b < (reg.start : ℤ)) (hreg : reg.start ≤ reg.stop)
    (hdis : ∀ s ∈ l, PtDisj reg s) : chainI b (insert_region l reg) := by
  unfold insert_region
  by_cases he : reg.start = reg.stop
  · rw [if_pos he]; exact hl
  · rw [if_neg he]
    exact chainI_go reg _ l b hl hb (by omega) hdis

theorem covers_coalesce : ∀ (rest : List VkRegion) (r : VkRegion) (x : ℕ),
    covers (coalesce_forward r rest) x → inReg x r ∨ covers rest x
  | [], r, x, h => by
    obtain ⟨s, hs, hx⟩ := h
    rcases List.mem_singleton.mp hs with rfl
    exact Or.inl hx
  | next :: rest, r, x, h => by
    unfold coalesce_forward at h
    by_cases he : r.stop = next.start
    · rw [if_pos he] at h
      rcases covers_coalesce rest ⟨r.start, next.stop⟩ x h with hin | hcov
      · obtain ⟨hin1, hin2⟩ := hin
        by_cases hx : x < r.stop
        · exact Or.inl ⟨hin1, hx⟩
        · exact Or.inr ⟨next, List.mem_cons_self _ _, ⟨by omega, hin2⟩⟩
      · obtain ⟨s, hs, hxs⟩ := hcov
        exact Or.inr ⟨s, List.mem_cons_of_mem next hs, hxs⟩
    · rw [if_neg he] at h
      obtain ⟨s, hs, hxs⟩ := h
      rcases List.mem_cons.mp hs with rfl | hs'
      · exact Or.inl hxs
      · exact Or.inr ⟨s, hs', hxs⟩

theorem covers_go (reg : VkRegion) (big : Bool) : ∀ (l : List VkRegion) (x : ℕ),
    covers (insert_region_go reg big l) x → covers l x ∨ inReg x reg
  | [], x, h => by
    unfold insert_region_go at h
    cases big
    · exact absurd h (by simp [covers])
    · obtain ⟨s, hs, hxs⟩ := h
      rcases List.mem_singleton.mp hs with rfl
      exact Or.inr hxs
  | r :: rest, x, h => by
    unfold insert_region_go at h
    by_cases e1 : r.stop = reg.start
    · rw [if_pos e1] at h
      rcases covers_coalesce rest ⟨r.start, reg.stop⟩ x h with hin | hcov
      · obtain ⟨hin1, hin2⟩ := hin
        by_cases hx : x < r.stop
        · exact Or.inl ⟨r, List.mem_cons_self _ _, ⟨hin1, hx⟩⟩
        · exact Or.inr ⟨by omega, hin2⟩
      · obtain ⟨s, hs, hxs⟩ := hcov
        exact Or.inl ⟨s, List.mem_cons_of_mem r hs, hxs⟩
    · rw [if_neg e1] at h
      by_cases e2 : r.start = reg.stop
      · rw [if_pos e2] at h
        obtain ⟨s, hs, hxs⟩ := h
        rcases List.mem_cons.mp hs with rfl | hs'
        · obtain ⟨hx1, hx2⟩ := hxs
          by_cases hx : x < reg.stop
          · exact Or.inr ⟨hx1, hx⟩
          · exact Or.inl ⟨r, List.mem_cons_self _ _, ⟨by omega, hx2⟩⟩
        · exact Or.inl ⟨s, List.mem_cons_of_mem r hs', hxs⟩
      · rw [if_neg e2] at h
        by_cases e3 : reg.start < r.start
        · rw [if_pos e3] at h
          cases big
          · exact Or.inl h
          · obtain ⟨s, hs, hxs⟩ := h
            rcases List.mem_cons.mp hs with rfl | hs'
            · exact Or.inr hxs
            · exact Or.inl ⟨s, hs', hxs⟩
        · rw [if_neg e3] at h
          obtain ⟨s, hs, hxs⟩ := h
          rcases List.mem_cons.mp hs with rfl | hs'
          · exact Or.inl ⟨s, List.mem_cons_self _ _, hxs⟩
          · rcases covers_go reg big rest x ⟨s, hs', hxs⟩ with hcov | hin
            · obtain ⟨s', hs'', hxs'⟩ := hcov
              exact Or.inl ⟨s', List.mem_cons_of_mem r hs'', hxs'⟩
            · exact Or.inr hin

theorem covers_insert_region {l : List VkRegion} {reg : VkRegion} {x : ℕ}
    (h : covers (insert_region l reg) x) : covers l x ∨ inReg x reg := by
  unfold insert_region at h
  by_cases he : reg.start = reg.stop
  · rw [if_pos he] at h; exact Or.inl h
  · rw [if_neg he] at h; exact covers_go reg _ l x h

theorem chainI_eraseIdx : ∀ (l : List VkRegion) (n : ℕ) {b : ℤ},
    chainI b l → chainI b (l.eraseIdx n)
  | [], _, _, h => h
  | r :: rest, 0, b, ⟨hb, hr, hrest⟩ => by
    simpa using chainI_mono rest (by omega) hrest
  | r :: rest, n + 1, b, ⟨hb, hr, hrest⟩ =>
    ⟨hb, hr, chainI_eraseIdx rest n hrest⟩

theorem chain_covers_lb : ∀ (l : List VkRegion) {b : ℤ} {x : ℕ},
    chainI b l → covers l x → b < (x : ℤ)
  | [], _, _, _, h => absurd h (by simp [covers])
  | r :: rest, b, x, ⟨hb, hr, hrest⟩, hcov => by
    obtain ⟨s, hs, hxs⟩ := hcov
    rcases List.mem_cons.mp hs with rfl | hs'
    · have := hxs.1; omega
    · have := chain_covers_lb rest hrest ⟨s, hs', hxs⟩; omega

theorem chain_mem_start : ∀ (l : List VkRegion) {b : ℤ} {r : VkRegion},
    chainI b l → r ∈ l → b < (r.start : ℤ)
  | [], _, _, _, h => absurd h (List.not_mem_nil _)
  | s :: rest, b, r, ⟨hb, hs, hrest⟩, hmem => by
    rcases List.mem_cons.mp hmem with rfl | hmem'
    · exact hb
    · have := chain_mem_start rest hrest hmem'; omega

theorem chain_get_start : ∀ (l : List VkRegion) (n : ℕ) {b : ℤ} {r : VkRegion},
    chainI b l → l[n]? = some r → b < (r.start : ℤ)
  | [], _, _, _, _, h => by simp at h
  | s :: rest, 0, b, r, ⟨hb, _, _⟩, h => by
    simp only [List.getElem?_cons_zero, Option.some_inj] at h
    subst h
    exact hb
  | s :: rest, n + 1, b, r, ⟨hb, hs, hrest⟩, h => by
    rw [List.getElem?_cons_succ] at h
    have := chain_get_start rest n hrest h
    omega

theorem getElem?_mem_regions : ∀ (l : List VkRegion) (n : ℕ) {r : VkRegion},
    l[n]? = some r → r ∈ l
  | [], _, _, h => by simp at h
  | s :: rest, 0, r, h => by
    simp only [List.getElem?_cons_zero, Option.some_inj] at h
    exact h ▸ List.mem_cons_self _ _
  | s :: rest, n + 1, r, h => by
    rw [List.getElem?_cons_succ] at h
    exact List.mem_cons_of_mem s (getElem?_mem_regions rest n h)

theorem chain_erase_disjoint : ∀ (l : List VkRegion) (n : ℕ) {b : ℤ} {reg : VkRegion} {x : ℕ},
    chainI b l → l[n]? = some reg → covers (l.eraseIdx n) x → inReg x reg → False
  | [], _, _, _, _, _, h, _, _ => by simp at h
  | r :: rest, 0, b, reg, x, ⟨hb, hr, hrest⟩, hget, hcov, hin => by
    simp only [List.getElem?_cons_zero, Option.some_inj] at hget
    subst hget
    rw [List.eraseIdx_cons_zero] at hcov
    have := chain_covers_lb rest hrest hcov
    have := hin.2
    omega
  | r :: rest, n + 1, b, reg, x, ⟨hb, hr, hrest⟩, hget, hcov, hin => by
    rw [List.getElem?_cons_succ] at hget
    rw [List.eraseIdx_cons_succ] at hcov
    obtain ⟨s, hs, hxs⟩ := hcov
    rcases List.mem_cons.mp hs with rfl | hs'
    · have h1 := chain_get_start rest n hrest hget
      have := hxs.2
      have := hin.1
      omega
    · exact chain_erase_disjoint rest n hrest hget ⟨s, hs', hxs⟩ hin

/-! ## Characterization of the best-fit search -/

theorem PL_ALIGN_le (x a : ℕ) : x ≤ PL_ALIGN x a := by
  unfold PL_ALIGN
  by_cases ha : a = 0
  · rw [if_pos ha]
  · rw [if_neg ha]
    have h1 := Nat.div_add_mod (x + a - 1) a
    have h2 : (x + a - 1) % a < a := Nat.mod_lt _ (Nat.pos_of_ne_zero ha)
    have h3 : 1 ≤ a := Nat.one_le_iff_ne_zero.mpr ha
    rw [mul_comm]
    generalize hq : a * ((x + a - 1) / a) = t at h1 ⊢
    omega

theorem region_fits_le {r : VkRegion} {size align : ℕ}
    (h : region_fits r size align = true) : PL_ALIGN r.start align + size ≤ r.stop := by
  simpa [region_fits] using h

theorem best_fit_aux_sound (size align : ℕ) :
    ∀ (l : List VkRegion) (k : ℕ) (acc : Option (ℕ × VkRegion)) {n : ℕ} {reg : VkRegion},
    best_fit_aux size align k acc l = some (n, reg) →
    acc = some (n, reg) ∨
      (k ≤ n ∧ l[n - k]? = some reg ∧ region_fits reg size align = true)
  | [], k, acc, n, reg, h => Or.inl h
  | r :: rest, k, acc, n, reg, h => by
    unfold best_fit_aux at h
    rcases best_fit_aux_sound size align rest (k + 1) _ h with hacc | ⟨hk, hget, hfits⟩
    · by_cases hf : region_fits r size align = true
      · rw [if_pos hf] at hacc
        rcases acc with _ | ⟨b, br⟩
        · have hacc' : (some (k, r) : Option (ℕ × VkRegion)) = some (n, reg) := hacc
          simp only [Option.some_inj, Prod.mk.injEq] at hacc'
          obtain ⟨h1, h2⟩ := hacc'
          subst h1; subst h2
          exact Or.inr ⟨le_refl _, by simp, hf⟩
        · have hacc' : (if region_len br < region_len r then some (b, br)
              else some (k, r)) = some (n, reg) := hacc
          by_cases hlen : region_len br < region_len r
          · rw [if_pos hlen] at hacc'
            exact Or.inl hacc'
          · rw [if_neg hlen] at hacc'
            simp only [Option.some_inj, Prod.mk.injEq] at hacc'
            obtain ⟨h1, h2⟩ := hacc'
            subst h1; subst h2
            exact Or.inr ⟨le_refl _, by simp, hf⟩
      · rw [if_neg hf] at hacc
        exact Or.inl hacc
    · refine Or.inr ⟨by omega, ?_, hfits⟩
      have : n - k = (n - (k + 1)) + 1 := by omega
      rw [this, List.getElem?_cons_succ]
      exact hget

theorem best_fit_get {rs : List VkRegion} {size align n : ℕ} {reg : VkRegion}
    (h : best_fit rs size align = some (n, reg)) :
    rs[n]? = some reg ∧ region_fits reg size align = true := by
  rcases best_fit_aux_sound size align rs 0 none h with hacc | ⟨_, hget, hfits⟩
  · exact absurd hacc (by simp)
  · exact ⟨by simpa using hget, hfits⟩

theorem best_fit_aux_min (size align : ℕ) :
    ∀ (l : List VkRegion) (k : ℕ) (acc : Option (ℕ × VkRegion)) {n : ℕ} {reg : VkRegion},
    best_fit_aux size align k acc l = some (n, reg) →
    (∀ r ∈ l, region_fits r size align = true → region_len reg ≤ region_len r) ∧
      (∀ m mr, acc = some (m, mr) → region_len reg ≤ region_len mr)
  | [], k, acc, n, reg, h => by
    refine ⟨by simp, fun m mr hacc => ?_⟩
    have h' : acc = some (n, reg) := h
    rw [h'] at hacc
    simp only [Option.some_inj, Prod.mk.injEq] at hacc
    rw [hacc.2]
  | r :: rest, k, acc, n, reg, h => by
    unfold best_fit_aux at h
    obtain ⟨ih1, ih2⟩ := best_fit_aux_min size align rest (k + 1) _ h
    by_cases hf : region_fits r size align = true
    · rw [if_pos hf] at ih2
      rcases acc with _ | ⟨b, br⟩
      · have ih2' : ∀ m mr, (some (k, r) : Option (ℕ × VkRegion)) = some (m, mr) →
            region_len reg ≤ region_len mr := ih2
        have hr : region_len reg ≤ region_len r := ih2' k r rfl
        refine ⟨fun s hs hfs => ?_, fun m mr hacc => by simp at hacc⟩
        rcases List.mem_cons.mp hs with rfl | hs'
        · exact hr
        · exact ih1 s hs' hfs
      · have ih2' : ∀ m mr, (if region_len br < region_len r then some (b, br)
            else some (k, r)) = some (m, mr) → region_len reg ≤ region_len mr := ih2
        have hr : region_len reg ≤ region_len r := by
          by_cases hlen : region_len br < region_len r
          · rw [if_pos hlen] at ih2'
            exact le_trans (ih2' b br rfl) (le_of_lt hlen)
          · rw [if_neg hlen] at ih2'
            exact ih2' k r rfl
        refine ⟨fun s hs hfs => ?_, fun m mr hacc => ?_⟩
        · rcases List.mem_cons.mp hs with rfl | hs'
          · exact hr
          · exact ih1 s hs' hfs
        · simp only [Option.some_inj, Prod.mk.injEq] at hacc
          obtain ⟨h1, h2⟩ := hacc
          rw [← h2]
          by_cases hlen : region_len br < region_len r
          · rw [if_pos hlen] at ih2'
            exact ih2' b br rfl
          · rw [if_neg hlen] at ih2'
            exact le_trans (ih2' k r rfl) (not_lt.mp hlen)
    · rw [if_neg hf] at ih2
      refine ⟨fun s hs hfs => ?_, ih2⟩
      rcases List.mem_cons.mp hs with rfl | hs'
      · exact absurd hfs hf
      · exact ih1 s hs' hfs

theorem best_fit_aux_none (size align : ℕ) :
    ∀ (l : List VkRegion) (k : ℕ) (acc : Option (ℕ × VkRegion)),
    best_fit_aux size align k acc l = none →
    acc = none ∧ ∀ r ∈ l, region_fits r size align = false
  | [], k, acc, h => ⟨h, by simp⟩
  | r :: rest, k, acc, h => by
    unfold best_fit_aux at h
    obtain ⟨hacc, hrest⟩ := best_fit_aux_none size align rest (k + 1) _ h
    by_cases hf : region_fits r size align = true
    · rw [if_pos hf] at hacc
      exfalso
      rcases acc with _ | ⟨b, br⟩
      · exact Option.some_ne_none _ hacc
      · have hacc' : (if region_len br < region_len r then some (b, br)
            else some (k, r)) = none := hacc
        by_cases hlen : region_len br < region_len r
        · rw [if_pos hlen] at hacc'; exact Option.some_ne_none _ hacc'
        · rw [if_neg hlen] at hacc'; exact Option.some_ne_none _ hacc'
    · rw [if_neg hf] at hacc
      refine ⟨hacc, fun s hs => ?_⟩
      rcases List.mem_cons.mp hs with rfl | hs'
      · exact Bool.eq_false_iff.mpr hf
      · exact hrest s hs'

theorem find_slab_fit_sound (size align : ℕ) :
    ∀ (heap : List VkSlab) (k : ℕ) {i n : ℕ},
    find_slab_fit size align k heap = some (i, n) →
    k ≤ i ∧ (∃ s, heap[i - k]? = some s ∧ size ≤ s.size ∧
      (∃ reg, best_fit s.regions size align = some (n, reg)) ∧
      ∀ j, j < i - k → ∀ s', heap[j]? = some s' →
        s'.size < size ∨ ∀ r ∈ s'.regions, region_fits r size align = false)
  | [], k, i, n, h => by simp [find_slab_fit] at h
  | s :: rest, k, i, n, h => by
    unfold find_slab_fit at h
    by_cases hsz : s.size < size
    · rw [if_pos hsz] at h
      obtain ⟨hk, s₀, hget, hsize, hbf, hprev⟩ := find_slab_fit_sound size align rest (k + 1) h
      refine ⟨by omega, s₀, ?_, hsize, hbf, fun j hj s' hget' => ?_⟩
      · have : i - k = (i - (k + 1)) + 1 := by omega
        rw [this, List.getElem?_cons_succ]
        exact hget
      · match j, hget' with
        | 0, hget' =>
          simp only [List.getElem?_cons_zero, Option.some_inj] at hget'
          exact Or.inl (hget' ▸ hsz)
        | j' + 1, hget' =>
          rw [List.getElem?_cons_succ] at hget'
          exact hprev j' (by omega) s' hget'
    · rw [if_neg hsz] at h
      match hbf : best_fit s.regions size align, h with
      | some (n₀, reg), h =>
        have h' : (some (k, n₀) : Option (ℕ × ℕ)) = some (i, n) := h
        simp only [Option.some_inj, Prod.mk.injEq] at h'
        obtain ⟨h1, h2⟩ := h'
        subst h1; subst h2
        refine ⟨le_refl _, s, by simp, not_lt.mp hsz, ⟨reg, hbf⟩, fun j hj s' hget' => ?_⟩
        omega
      | none, h =>
        have h' : find_slab_fit size align (k + 1) rest = some (i, n) := h
        obtain ⟨hk, s₀, hget, hsize, hbf', hprev⟩ :=
          find_slab_fit_sound size align rest (k + 1) h'
        refine ⟨by omega, s₀, ?_, hsize, hbf', fun j hj s' hget' => ?_⟩
        · have : i - k = (i - (k + 1)) + 1 := by omega
          rw [this, List.getElem?_cons_succ]
          exact hget
        · match j, hget' with
          | 0, hget' =>
            simp only [List.getElem?_cons_zero, Option.some_inj] at hget'
            subst hget'
            exact Or.inr (best_fit_aux_none size align _ 0 none hbf).2
          | j' + 1, hget' =>
            rw [List.getElem?_cons_succ] at hget'
            exact hprev j' (by omega) s' hget'

/-! ## The per-slab allocation/free state machine (claim C2)

A slab together with its outstanding slices.  `slab_step` is exactly what
one slab undergoes through slice_heap (best-fit search and carve) and
vk_free_memslice (return the range [offset, offset + size) of a slice that
was handed out and is still outstanding). -/

structure SlabTrack where
  slab : VkSlab
  slices : List VkRegion
deriving DecidableEq, Repr

/-- One suballocation or free on a single slab. -/
inductive slab_step : SlabTrack → SlabTrack → Prop where
  | alloc (st : SlabTrack) (size align n : ℕ) (reg : VkRegion)
      (h : best_fit st.slab.regions size align = some (n, reg)) :
      slab_step st
        ⟨(carve_slab st.slab n size align).1,
         ⟨(carve_slab st.slab n size align).2,
          (carve_slab st.slab n size align).2 + size⟩ :: st.slices⟩
  | free (st : SlabTrack) (l₁ l₂ : List VkRegion) (sl : VkRegion)
      (h : st.slices = l₁ ++ sl :: l₂) :
      slab_step st
        ⟨{ st.slab with used := st.slab.used - region_len sl,
                        regions := insert_region st.slab.regions sl },
         l₁ ++ l₂⟩

/-- A fresh slab and no outstanding slices. -/
def freshSlab (size : ℕ) : SlabTrack := ⟨slab_alloc size, []⟩

/-- The inductive invariant: the free-space map is an ordered chain,
slices are well-formed, every slice is disjoint from every free region, and
the slices are pairwise disjoint. -/
def SlabInv (st : SlabTrack) : Prop :=
  chainI (-1) st.slab.regions ∧
  (∀ sl ∈ st.slices, sl.start ≤ sl.stop) ∧
  (∀ sl ∈ st.slices, ∀ r ∈ st.slab.regions, PtDisj sl r) ∧
  st.slices.Pairwise PtDisj

theorem SlabInv_alloc (st : SlabTrack) (size align n : ℕ) (reg : VkRegion)
    (hbf : best_fit st.slab.regions size align = some (n, reg))
    (hinv : SlabInv st) :
    SlabInv ⟨(carve_slab st.slab n size align).1,
      ⟨(carve_slab st.slab n size align).2,
       (carve_slab st.slab n size align).2 + size⟩ :: st.slices⟩ := by
  obtain ⟨hchain, hbnd, hdisj, hpair⟩ := hinv
  obtain ⟨hget, hfits⟩ := best_fit_get hbf
  have hreg_mem : reg ∈ st.slab.regions := getElem?_mem_regions _ n hget
  unfold carve_slab
  rw [hget]
  simp only [Option.getD_some]
  set off := PL_ALIGN reg.start align with hoff
  have hle1 : reg.start ≤ off := PL_ALIGN_le _ _
  have hle2 : off + size ≤ reg.stop := region_fits_le hfits
  set E := st.slab.regions.eraseIdx n with hE
  have hEchain : chainI (-1) E := chainI_eraseIdx _ n hchain
  -- every offset of [reg.start, off) or [off + size, reg.stop) lies in reg,
  -- hence in no region of E
  have hsub1 : ∀ x : ℕ, inReg x ⟨reg.start, off⟩ → inReg x reg :=
    fun x hx => ⟨hx.1, by have h2 : x < off := hx.2; omega⟩
  have hsub2 : ∀ x : ℕ, inReg x ⟨off + size, reg.stop⟩ → inReg x reg :=
    fun x hx => ⟨by have h1 : off + size ≤ x := hx.1; omega, hx.2⟩
  have hE1 : ∀ s ∈ E, PtDisj (⟨reg.start, off⟩ : VkRegion) s := by
    intro s hs x hx1 hx2
    exact chain_erase_disjoint _ n hchain hget ⟨s, hs, hx2⟩ (hsub1 x hx1)
  set A := insert_region E ⟨reg.start, off⟩ with hA
  have hAchain : chainI (-1) A :=
    chainI_insert_region hEchain (by show (-1 : ℤ) < (reg.start : ℕ); omega)
      (by show reg.start ≤ off; omega) hE1
  have hA2 : ∀ s ∈ A, PtDisj (⟨off + size, reg.stop⟩ : VkRegion) s := by
    intro s hs x hx1 hx2
    rcases covers_insert_region ⟨s, hs, hx2⟩ with hcovE | hin1
    · exact chain_erase_disjoint _ n hchain hget hcovE (hsub2 x hx1)
    · have h1 := hx1.1
      have h2 := hin1.2
      simp only at h1 h2
      omega
  have hBchain : chainI (-1) (insert_region A ⟨off + size, reg.stop⟩) :=
    chainI_insert_region hAchain (by show (-1 : ℤ) < ((off + size : ℕ) : ℤ); omega)
      (by show off + size ≤ reg.stop; omega) hA2
  refine ⟨hBchain, ?_, ?_, ?_⟩
  · intro sl hsl
    rcases List.mem_cons.mp hsl with rfl | hsl'
    · show off ≤ off + size; omega
    · exact hbnd sl hsl'
  · intro sl hsl r hr x hx1 hx2
    have hcov : covers (insert_region A ⟨off + size, reg.stop⟩) x := ⟨r, hr, hx2⟩
    have hsplit : covers E x ∨ inReg x (⟨reg.start, off⟩ : VkRegion) ∨
        inReg x (⟨off + size, reg.stop⟩ : VkRegion) := by
      rcases covers_insert_region hcov with hcovA | hin2
      · rcases covers_insert_region hcovA with hcovE | hin1
        · exact Or.inl hcovE
        · exact Or.inr (Or.inl hin1)
      · exact Or.inr (Or.inr hin2)
    rcases List.mem_cons.mp hsl with rfl | hsl'
    · have hx1' : off ≤ x ∧ x < off + size := hx1
      rcases hsplit with hcovE | hin1 | hin2
      · exact chain_erase_disjoint _ n hchain hget hcovE ⟨by omega, by omega⟩
      · have h2 : x < off := hin1.2
        omega
      · have h2 : off + size ≤ x := hin2.1
        omega
    · rcases hsplit with hcovE | hin1 | hin2
      · obtain ⟨r₀, hr₀, hxr₀⟩ := hcovE
        exact hdisj sl hsl' r₀ (List.mem_of_mem_eraseIdx hr₀) x hx1 hxr₀
      · exact hdisj sl hsl' reg hreg_mem x hx1 (hsub1 x hin1)
      · exact hdisj sl hsl' reg hreg_mem x hx1 (hsub2 x hin2)
  · refine List.pairwise_cons.mpr ⟨?_, hpair⟩
    intro sl hsl x hx1 hx2
    have hx1' : off ≤ x ∧ x < off + size := hx1
    exact hdisj sl hsl reg hreg_mem x hx2 ⟨by omega, by omega⟩

theorem SlabInv_free (st : SlabTrack) (l₁ l₂ : List VkRegion) (sl : VkRegion)
    (h : st.slices = l₁ ++ sl :: l₂) (hinv : SlabInv st) :
    SlabInv ⟨{ st.slab with used := st.slab.used - region_len sl,
                            regions := insert_region st.slab.regions sl }, l₁ ++ l₂⟩ := by
  obtain ⟨hchain, hbnd, hdisj, hpair⟩ := hinv
  have hsl_mem : sl ∈ st.slices := by
    rw [h]; exact List.mem_append_right l₁ (List.mem_cons_self _ _)
  rw [h] at hpair
  obtain ⟨hp1, hp2, hcross⟩ := List.pairwise_append.mp hpair
  obtain ⟨hsl_l₂, hp2'⟩ := List.pairwise_cons.mp hp2
  have hmem_of : ∀ s ∈ l₁ ++ l₂, s ∈ st.slices := by
    intro s hs
    rw [h]
    rcases List.mem_append.mp hs with hs1 | hs2
    · exact List.mem_append_left _ hs1
    · exact List.mem_append_right _ (List.mem_cons_of_mem sl hs2)
  have hdis_sl : ∀ s ∈ l₁ ++ l₂, PtDisj s sl := by
    intro s hs
    rcases List.mem_append.mp hs with hs1 | hs2
    · exact hcross s hs1 sl (List.mem_cons_self _ _)
    · exact ptdisj_symm (hsl_l₂ s hs2)
  refine ⟨?_, ?_, ?_, ?_⟩
  · exact chainI_insert_region hchain (by show (-1 : ℤ) < (sl.start : ℕ); omega)
      (hbnd sl hsl_mem) (fun r hr => hdisj sl hsl_mem r hr)
  · exact fun s hs => hbnd s (hmem_of s hs)
  · intro s hs r hr x hx1 hx2
    rcases covers_insert_region ⟨r, hr, hx2⟩ with hcov | hin
    · obtain ⟨r₀, hr₀, hxr₀⟩ := hcov
      exact hdisj s (hmem_of s hs) r₀ hr₀ x hx1 hxr₀
    · exact hdis_sl s hs x hx1 hin
  · exact List.pairwise_append.mpr
      ⟨hp1, hp2', fun a ha b hb => hcross a ha b (List.mem_cons_of_mem sl hb)⟩

theorem SlabInv_fresh (size : ℕ) (hsize : 0 < size) : SlabInv (freshSlab size) := by
  refine ⟨⟨by norm_num, hsize, trivial⟩, ?_, ?_, ?_⟩ <;> simp [freshSlab, slab_alloc]

theorem SlabInv_steps {st st' : SlabTrack} (h : SlabInv st)
    (hsteps : Relation.ReflTransGen slab_step st st') : SlabInv st' := by
  induction hsteps with
  | refl => exact h
  | tail _ hstep ih =>
    cases hstep with
    | alloc size align n reg hbf => exact SlabInv_alloc _ size align n reg hbf ih
    | free l₁ l₂ sl hdecomp => exact SlabInv_free _ l₁ l₂ sl hdecomp ih

theorem chain_pairwise : ∀ (l : List VkRegion) {b : ℤ}, chainI b l →
    l.Pairwise (fun a c => a.stop < c.start)
  | [], _, _ => List.Pairwise.nil
  | r :: rest, b, ⟨hb, hr, hrest⟩ => by
    refine List.pairwise_cons.mpr ⟨?_, chain_pairwise rest hrest⟩
    intro c hc
    have := chain_mem_start rest hrest hc
    omega

theorem chain_nonempty : ∀ (l : List VkRegion) {b : ℤ}, chainI b l →
    ∀ r ∈ l, r.start < r.stop
  | [], _, _, _, h => absurd h (List.not_mem_nil _)
  | s :: rest, b, ⟨_, hs, hrest⟩, r, hmem => by
    rcases List.mem_cons.mp hmem with rfl | hmem'
    · exact hs
    · exact chain_nonempty rest hrest r hmem'

/-! ## Claim theorems: sub-allocator -/

theorem PL_ALIGN_zero (a : ℕ) : PL_ALIGN 0 a = 0 := by
  unfold PL_ALIGN
  by_cases ha : a = 0
  · rw [if_pos ha]
  · rw [if_neg ha]
    rw [Nat.div_eq_of_lt (by omega)]
    exact Nat.zero_mul a

/-- C2: starting from a fresh slab, any sequence of suballocations
(the best-fit carve of slice_heap) and frees of outstanding slices
(vk_free_memslice) leaves the free-region list strictly increasing in start,
pairwise disjoint, and with no two consecutive regions adjacent (each
region ends strictly below the next start). -/
theorem C2_slab_free_regions_invariant (size : ℕ) (st : SlabTrack)
    (hsize : 0 < size)
    (hsteps : Relation.ReflTransGen slab_step (freshSlab size) st) :
    st.slab.regions.Pairwise (fun a c => a.start < c.start) ∧
    st.slab.regions.Pairwise (fun a c => a.stop ≤ c.start) ∧
    List.Chain' (fun a c => a.stop < c.start) st.slab.regions := by
  have hinv := SlabInv_steps (SlabInv_fresh size hsize) hsteps
  have hchain := hinv.1
  have hpw := chain_pairwise _ hchain
  have hne := chain_nonempty _ hchain
  refine ⟨?_, ?_, List.Pairwise.chain' hpw⟩
  · exact hpw.imp_of_mem (fun ha _ hlt => lt_trans (hne _ ha) hlt)
  · exact hpw.imp le_of_lt

/-- A state reached from a fresh 1 MiB slab by one 1 KiB suballocation
aligned to 16 (used to instantiate C2). -/
def C2_wit_state : SlabTrack :=
  ⟨⟨1048576, 1024, false, [⟨1024, 1048576⟩]⟩, [⟨0, 1024⟩]⟩

theorem C2_slab_free_regions_invariant_witness :
    0 < 1048576 ∧
    (C2_wit_state.slab.regions.Pairwise (fun a c => a.start < c.start) ∧
     C2_wit_state.slab.regions.Pairwise (fun a c => a.stop ≤ c.start) ∧
     List.Chain' (fun a c => a.stop < c.start) C2_wit_state.slab.regions) := by
  have hstep : slab_step (freshSlab 1048576) C2_wit_state := by
    have h := slab_step.alloc (freshSlab 1048576) 1024 16 0 ⟨0, 1048576⟩ (by decide)
    have he : (⟨(carve_slab (freshSlab 1048576).slab 0 1024 16).1,
        ⟨(carve_slab (freshSlab 1048576).slab 0 1024 16).2,
         (carve_slab (freshSlab 1048576).slab 0 1024 16).2 + 1024⟩ ::
        (freshSlab 1048576).slices⟩ : SlabTrack) = C2_wit_state := by decide
    exact he ▸ h
  exact ⟨by decide, C2_slab_free_regions_invariant 1048576 C2_wit_state (by decide)
    (Relation.ReflTransGen.single hstep)⟩

/-- C1 counterexample: a reachable heap where the allocator does not pick
the globally smallest fitting region.  Four suballocations and one free
build a heap whose slab 0 (4 MiB) holds a free region of length 3 MiB and
whose slab 1 (16 MiB) holds a free region of length 1 MiB.  A 512 KiB
request is served from the 3 MiB region of slab 0 — the first slab with any
fit — even though slab 1 is large enough and its fitting region is strictly
smaller. -/
theorem C1_counterexample :
    (let o1 := slice_heap ([] : List VkSlab) 1048576 1 1
     let o2 := slice_heap o1.1 3145728 1 1
     let o3 := slice_heap o2.1 2097152 1 1
     let o4 := slice_heap o3.1 13631488 1 1
     let H := (vk_free_memslice o4.1 o2.2).1
     H = [⟨4194304, 1048576, false, [⟨1048576, 4194304⟩]⟩,
          ⟨16777216, 15728640, false, [⟨15728640, 16777216⟩]⟩] ∧
     find_slab_fit 524288 1 0 H = some (0, 0) ∧
     (slice_heap H 524288 1 1).2 =
       { target := SliceTarget.heapSlab 0, offset := 1048576, size := 524288 } ∧
     524288 ≤ (16777216 : ℕ) ∧
     region_fits ⟨15728640, 16777216⟩ 524288 1 = true ∧
     region_len (⟨15728640, 16777216⟩ : VkRegion) <
       region_len (⟨1048576, 4194304⟩ : VkRegion)) := by
  decide

/-- C1 (amended): for a request of size at most MAX_SLAB served from an
existing heap, the region the slice is carved from is, within the FIRST
slab in insertion order whose total size is at least the request and which
holds any region that fits after alignment, the fitting region of smallest
length; every earlier slab is either too small or has no fitting region. -/
theorem C1_best_fit_first_slab (heap : List VkSlab) (size align i n : ℕ)
    (h : find_slab_fit size align 0 heap = some (i, n)) :
    ∃ s reg, heap[i]? = some s ∧ size ≤ s.size ∧
      s.regions[n]? = some reg ∧ region_fits reg size align = true ∧
      (∀ r ∈ s.regions, region_fits r size align = true →
        region_len reg ≤ region_len r) ∧
      (∀ j, j < i → ∀ s', heap[j]? = some s' →
        s'.size < size ∨ ∀ r ∈ s'.regions, region_fits r size align = false) := by
  obtain ⟨_, s, hget, hsize, ⟨reg, hbf⟩, hprev⟩ := find_slab_fit_sound size align heap 0 h
  rw [Nat.sub_zero] at hget
  obtain ⟨hregget, hfits⟩ := best_fit_get hbf
  have hmin := (best_fit_aux_min size align s.regions 0 none hbf).1
  exact ⟨s, reg, hget, hsize, hregget, hfits, hmin,
    fun j hj s' hg => hprev j (by omega) s' hg⟩

theorem C1_best_fit_first_slab_witness :
    find_slab_fit 1024 1 0 [⟨2048, 0, false, [⟨0, 2048⟩]⟩] = some (0, 0) ∧
    (∃ s reg, ([⟨2048, 0, false, [⟨0, 2048⟩]⟩] : List VkSlab)[0]? = some s ∧
      1024 ≤ s.size ∧ s.regions[0]? = some reg ∧ region_fits reg 1024 1 = true ∧
      (∀ r ∈ s.regions, region_fits r 1024 1 = true →
        region_len reg ≤ region_len r) ∧
      (∀ j, j < 0 → ∀ s', ([⟨2048, 0, false, [⟨0, 2048⟩]⟩] : List VkSlab)[j]? = some s' →
        s'.size < 1024 ∨ ∀ r ∈ s'.regions, region_fits r 1024 1 = false)) :=
  ⟨by decide, C1_best_fit_first_slab [⟨2048, 0, false, [⟨0, 2048⟩]⟩] 1024 1 0 0 (by decide)⟩

/-- C3: a request above MAX_SLAB is served from a dedicated slab of exactly
the requested size, carrying one slice at offset 0 that covers the whole
slab (used = size) and no free regions; the heap itself is untouched (so a
fresh heap stays empty), and freeing the slice destroys the slab with its
byte accounting returning to zero. -/
theorem C3_dedicated_slab (heap : List VkSlab) (size align gran : ℕ)
    (h : MAX_SLAB < size) :
    (slice_heap heap size align gran).1 = heap ∧
    (∃ s, (slice_heap heap size align gran).2.target = SliceTarget.dedicated s ∧
      s.size = size ∧ s.dedicated = true ∧ s.used = size ∧ s.regions = [] ∧
      s.used - (slice_heap heap size align gran).2.size = 0) ∧
    (slice_heap heap size align gran).2.offset = 0 ∧
    (slice_heap heap size align gran).2.size = size ∧
    vk_free_memslice heap (slice_heap heap size align gran).2 = (heap, true) := by
  have hz : PL_ALIGN 0 (Nat.lcm align gran) = 0 := PL_ALIGN_zero _
  simp only [slice_heap, heap_get_region, if_pos h, carve_slab, slab_alloc,
    List.getElem?_cons_zero, Option.getD_some, hz, List.eraseIdx_cons_zero,
    insert_region, vk_free_memslice]
  refine ⟨trivial, ⟨⟨size, size, true, []⟩, by norm_num, rfl, rfl, rfl, rfl,
    Nat.sub_self size⟩, trivial, trivial, trivial⟩

theorem C3_dedicated_slab_witness :
    MAX_SLAB < 268435457 ∧
    ((slice_heap ([] : List VkSlab) 268435457 1 1).1 = [] ∧
     (∃ s, (slice_heap ([] : List VkSlab) 268435457 1 1).2.target =
         SliceTarget.dedicated s ∧
       s.size = 268435457 ∧ s.dedicated = true ∧ s.used = 268435457 ∧ s.regions = [] ∧
       s.used - (slice_heap ([] : List VkSlab) 268435457 1 1).2.size = 0) ∧
     (slice_heap ([] : List VkSlab) 268435457 1 1).2.offset = 0 ∧
     (slice_heap ([] : List VkSlab) 268435457 1 1).2.size = 268435457 ∧
     vk_free_memslice [] (slice_heap ([] : List VkSlab) 268435457 1 1).2 = ([], true)) :=
  ⟨by decide, C3_dedicated_slab [] 268435457 1 1 (by decide)⟩

/-- C4 counterexample: run the seed scenario — 1 KiB + 2 KiB + 1 KiB
aligned 16 on a fresh heap, free the middle slice, request 2 KiB again (it
lands back at offset 1 KiB), then free the first and third slices.  The
slab is left with TWO free regions, [0, 1 KiB) and [3 KiB, 1 MiB): the
re-requested 2 KiB slice at [1 KiB, 3 KiB) is still outstanding, so no
single region can cover the whole used range. -/
theorem C4_counterexample :
    (let s1 := slice_heap ([] : List VkSlab) 1024 16 1
     let s2 := slice_heap s1.1 2048 16 1
     let s3 := slice_heap s2.1 1024 16 1
     let hf := (vk_free_memslice s3.1 s2.2).1
     let s4 := slice_heap hf 2048 16 1
     let hg := (vk_free_memslice s4.1 s1.2).1
     let hh := (vk_free_memslice hg s3.2).1
     s4.2.offset = 1024 ∧
     hh = [⟨1048576, 2048, false, [⟨0, 1024⟩, ⟨3072, 1048576⟩]⟩] ∧
     (hh.headD default).regions.length = 2 ∧ ¬ (hh.headD default).regions.length = 1) := by
  decide

/-- C4 (amended): after the scenario — three slices, free the middle,
re-request 2 KiB (landing at offset 1 KiB), free the first and third — the
slab holds exactly the two free regions [0, 1 KiB) and [3 KiB, slab size),
the complement of the still-outstanding re-allocated 2 KiB slice; the two
freed 1 KiB pieces each coalesced with the adjacent free space. -/
theorem C4_coalescing_two_regions :
    (let s1 := slice_heap ([] : List VkSlab) 1024 16 1
     let s2 := slice_heap s1.1 2048 16 1
     let s3 := slice_heap s2.1 1024 16 1
     let hf := (vk_free_memslice s3.1 s2.2).1
     let s4 := slice_heap hf 2048 16 1
     let hg := (vk_free_memslice s4.1 s1.2).1
     let hh := (vk_free_memslice hg s3.2).1
     s4.2 = { target := SliceTarget.heapSlab 0, offset := 1024, size := 2048 } ∧
     hh = [⟨1048576, 2048, false, [⟨0, 1024⟩, ⟨3072, 1048576⟩]⟩]) := by
  decide

/-! ## Claim theorems: tone mapping -/

/-- A concrete interpretation of the transcendental kernels, used only to
instantiate theorems that do not depend on them. -/
def trivOps : MathOps := ⟨fun _ _ => 0, fun _ => 0, fun _ => 0⟩

/-- C7: pl_hdr_rescale is the identity when source and target scaling agree,
and sends 0 to 0 for every pair of scalings, whatever the transcendental
kernels do. -/
theorem C7_rescale_identity (ops : MathOps) :
    (∀ (s : Scaling) (x : ℚ), pl_hdr_rescale ops s s x = x) ∧
    (∀ (f t : Scaling), pl_hdr_rescale ops f t 0 = 0) := by
  constructor
  · intro s x
    simp [pl_hdr_rescale]
  · intro f t
    by_cases h : f = t
    · simp [pl_hdr_rescale, h]
    · simp [pl_hdr_rescale, h]

/-- Modelled from the spec: the auto-curve selection rule, as the spec
words it — spline when the quotient exceeds 10, else BT.2446a when
max(q, 1/q) exceeds 2, else spline when q is below 1, else BT.2390. -/
def spec_auto_select (q : ℚ) : TMFun :=
  if 10 < q then .spline
  else if 2 < max q (1 / q) then .bt2446a
  else if q < 1 then .spline
  else .bt2390

/-- C6: with the auto function, fix_params picks the curve by the
NORM-scaling luminance quotient input_max / output_max according to the
spec selection rule. -/
theorem C6_auto_selection (ops : MathOps) (p : ToneMapParams)
    (h : p.function = some TMFun.auto) :
    (fix_params ops p).function = some (spec_auto_select
      (pl_hdr_rescale ops p.input_scaling Scaling.NORM p.input_max /
       pl_hdr_rescale ops p.output_scaling Scaling.NORM p.output_max)) := by
  show some (fix_params_choice ops p).1 = _
  unfold fix_params_choice spec_auto_select
  rw [h]
  rfl

/-- The auto-selection seed scenario: 10000 nits into 100 nits. -/
def C6_params : ToneMapParams :=
  { function := some TMFun.auto, param := 0,
    input_scaling := Scaling.NITS, output_scaling := Scaling.NITS,
    lut_size := 256, input_min := 0, input_max := 10000,
    output_min := 0, output_max := 100 }

theorem C6_auto_selection_witness :
    C6_params.function = some TMFun.auto ∧
    (fix_params trivOps C6_params).function = some TMFun.spline := by
  refine ⟨rfl, (C6_auto_selection trivOps C6_params rfl).trans ?_⟩
  have h1 : pl_hdr_rescale trivOps C6_params.input_scaling Scaling.NORM C6_params.input_max =
      10000 / 203 := by
    show pl_hdr_rescale trivOps Scaling.NITS Scaling.NORM 10000 = 10000 / 203
    unfold pl_hdr_rescale
    rw [if_neg (by decide : ¬ (Scaling.NITS = Scaling.NORM)),
      if_neg (by norm_num : ¬ ((10000 : ℚ) = 0))]
    rfl
  have h2 : pl_hdr_rescale trivOps C6_params.output_scaling Scaling.NORM C6_params.output_max =
      100 / 203 := by
    show pl_hdr_rescale trivOps Scaling.NITS Scaling.NORM 100 = 100 / 203
    unfold pl_hdr_rescale
    rw [if_neg (by decide : ¬ (Scaling.NITS = Scaling.NORM)),
      if_neg (by norm_num : ¬ ((100 : ℚ) = 0))]
    rfl
  rw [h1, h2]
  unfold spec_auto_select
  rw [if_pos (by norm_num : (10 : ℚ) < 10000 / 203 / (100 / 203))]

/-- Modelled from the spec: the curve-application stage of generate as the
spec words it — the forward mapping when output_max ≤ input_max + 1e-4 in
the native scaling of the curve, otherwise the inverse mapping, falling
back to the linear stretch when the curve has no inverse. -/
def spec_curve_apply (ops : MathOps) (f : TMFun) (p : ToneMapParams) (x : ℚ) : ℚ :=
  if p.output_max ≤ p.input_max + 1e-4 then
    match f.map with
    | some m => m ops p x
    | none => x
  else
    match f.map_inverse with
    | some inv => inv ops p x
    | none =>
      (x - p.input_min) * ((p.input_max - p.output_min) / (p.input_max - p.input_min)) +
        p.output_min

theorem map_lut1_eq_spec (ops : MathOps) (p : ToneMapParams) (x : ℚ) :
    map_lut1 ops p x = spec_curve_apply ops (fnOf p) p x := by
  unfold map_lut1 spec_curve_apply
  by_cases h : p.input_max + 1e-4 < p.output_max
  · rw [if_pos h, if_neg (not_le.mpr h)]
  · rw [if_neg h, if_pos (not_lt.mp h)]

theorem auto_curve_ne_auto (q : ℚ) : auto_curve q ≠ TMFun.auto := by
  unfold auto_curve
  split_ifs <;> decide

theorem fix_params_choice_ne_auto (ops : MathOps) (p : ToneMapParams) :
    (fix_params_choice ops p).1 ≠ TMFun.auto := by
  unfold fix_params_choice
  by_cases h : p.function.getD TMFun.clip = TMFun.auto
  · rw [if_pos h]
    exact auto_curve_ne_auto _
  · rw [if_neg h]
    exact h

theorem map_isSome_of_ne_auto (f : TMFun) (h : f ≠ TMFun.auto) :
    (TMFun.map f).isSome = true := by
  cases f
  · exact absurd rfl h
  all_goals rfl

/-- C5: pl_tone_map_generate equals, pointwise over the input grid, the
spec pipeline — apply the resolved curve forward when, in the native
scaling of that curve, output_max ≤ input_max + 1e-4, otherwise its inverse
(or the linear stretch when none exists), then clamp into
[output_min, output_max] in that scaling and convert to the output scaling
of the caller.  The resolved curve always exists and has a forward map. -/
theorem C5_generate_structure (ops : MathOps) (p : ToneMapParams) :
    ∃ f, (fix_params ops p).function = some f ∧ f ≠ TMFun.auto ∧
      (TMFun.map f).isSome = true ∧
      pl_tone_map_generate ops p =
        (input_grid ops p f.scaling).map (fun x =>
          pl_hdr_rescale ops f.scaling p.output_scaling
            (PL_CLAMP (spec_curve_apply ops f (fix_params ops p) x)
              (fix_params ops p).output_min (fix_params ops p).output_max)) := by
  have hne := fix_params_choice_ne_auto ops p
  refine ⟨(fix_params_choice ops p).1, rfl, hne, map_isSome_of_ne_auto _ hne, ?_⟩
  unfold pl_tone_map_generate map_lut
  rw [List.map_map]
  apply List.map_congr_left
  intro x _
  show pl_hdr_rescale ops _ p.output_scaling
      (PL_CLAMP (map_lut1 ops (fix_params ops p) x) _ _) = _
  rw [map_lut1_eq_spec]
  rfl

/-- C10 counterexample: with the degenerate endpoint order
input_min = 1 > 0 = input_max, PL_CLAMP is not idempotent
(clamp(clamp(-1)) = clamp(1) = 0 but clamp(-1) = 1), so sampling x and
sampling the clamped x disagree. -/
def C10_bad_params : ToneMapParams :=
  { function := some TMFun.clip, param := 0,
    input_scaling := Scaling.NORM, output_scaling := Scaling.NORM,
    lut_size := 1, input_min := 1, input_max := 0,
    output_min := 0, output_max := 1 }

theorem C10_counterexample :
    pl_tone_map_sample trivOps (-1) C10_bad_params ≠
      pl_tone_map_sample trivOps
        (PL_CLAMP (-1) C10_bad_params.input_min C10_bad_params.input_max)
        C10_bad_params := by
  have hfix : fix_params trivOps
      { function := some TMFun.clip, param := 0,
        input_scaling := Scaling.NORM, output_scaling := Scaling.NORM,
        lut_size := 1, input_min := 1, input_max := 0,
        output_min := 0, output_max := 1 } =
      { function := some TMFun.clip, param := 0,
        input_scaling := Scaling.NORM, output_scaling := Scaling.NORM,
        lut_size := 1, input_min := 1, input_max := 0,
        output_min := 0, output_max := 1 } := rfl
  have hL : pl_tone_map_sample trivOps (-1) C10_bad_params = 1 := by
    norm_num [pl_tone_map_sample, hfix, fnOf, map_lut1, PL_CLAMP, pl_hdr_rescale,
      C10_bad_params, TMFun.map, TMFun.map_inverse, TMFun.scaling, Option.getD_some]
  have hclamp : PL_CLAMP (-1) C10_bad_params.input_min C10_bad_params.input_max = 1 := by
    norm_num [PL_CLAMP, C10_bad_params]
  have hR : pl_tone_map_sample trivOps 1 C10_bad_params = 0 := by
    norm_num [pl_tone_map_sample, hfix, fnOf, map_lut1, PL_CLAMP, pl_hdr_rescale,
      C10_bad_params, TMFun.map, TMFun.map_inverse, TMFun.scaling, Option.getD_some]
  rw [hL, hclamp, hR]
  norm_num

theorem PL_CLAMP_idem (x l h : ℚ) (hlh : l ≤ h) :
    PL_CLAMP (PL_CLAMP x l h) l h = PL_CLAMP x l h := by
  unfold PL_CLAMP
  by_cases h1 : x < l
  · rw [if_pos h1, if_neg (lt_irrefl l), if_neg (not_lt.mpr hlh)]
  · rw [if_neg h1]
    by_cases h2 : h < x
    · rw [if_pos h2, if_neg (not_lt.mpr hlh), if_neg (lt_irrefl h)]
    · rw [if_neg h2, if_neg h1, if_neg h2]

/-- C10 (amended): whenever input_min ≤ input_max, pl_tone_map_sample
saturates its argument: sampling x equals sampling x clamped into
[input_min, input_max] — the curve is never extrapolated outside the
declared input range. -/
theorem C10_sample_saturates (ops : MathOps) (p : ToneMapParams) (x : ℚ)
    (h : p.input_min ≤ p.input_max) :
    pl_tone_map_sample ops x p =
      pl_tone_map_sample ops (PL_CLAMP x p.input_min p.input_max) p := by
  unfold pl_tone_map_sample
  rw [PL_CLAMP_idem x _ _ h]

/-- Well-ordered parameters for instantiating C10. -/
def C10_ok_params : ToneMapParams :=
  { function := some TMFun.clip, param := 0,
    input_scaling := Scaling.NORM, output_scaling := Scaling.NORM,
    lut_size := 1, input_min := 0, input_max := 1,
    output_min := 0, output_max := 1 }

theorem C10_sample_saturates_witness :
    C10_ok_params.input_min ≤ C10_ok_params.input_max ∧
    pl_tone_map_sample trivOps 2 C10_ok_params =
      pl_tone_map_sample trivOps
        (PL_CLAMP 2 C10_ok_params.input_min C10_ok_params.input_max) C10_ok_params :=
  ⟨by norm_num [C10_ok_params], C10_sample_saturates trivOps C10_ok_params 2
    (by norm_num [C10_ok_params])⟩

/-! ## Claim theorems: RA buffers and the pool -/

theorem insertAt_length : ∀ (l : List RaBuf) (n : ℕ) (a : RaBuf),
    (insertAt n a l).length = l.length + 1
  | [], 0, _ => rfl
  | [], _ + 1, _ => rfl
  | _ :: _, 0, _ => rfl
  | x :: l, n + 1, a => by
    show (x :: insertAt n a l).length = (x :: l).length + 1
    simp [insertAt_length l n a]

theorem insertAt_getD : ∀ (l : List RaBuf) (n : ℕ) (a d : RaBuf), n ≤ l.length →
    (insertAt n a l).getD n d = a
  | [], n, a, d, h => by
    have hn : n = 0 := by simpa using h
    subst hn
    rfl
  | _ :: _, 0, _, _, _ => rfl
  | x :: l, n + 1, a, d, h => by
    show (x :: insertAt n a l).getD (n + 1) d = a
    rw [List.getD_cons_succ]
    exact insertAt_getD l n a d (by simpa using h)

/-- C8: when the buffer at the cursor polls busy at timeout 0 and the device
grants one more buffer, ra_buf_pool_get inserts the new buffer at the cursor
position, returns the buffer now at the cursor (the new one), and advances
the cursor modulo the grown pool size — the pool has one more buffer than
before. -/
theorem C8_pool_busy_grow (limits : RaLimits) (impl : RaBufParams → Option RaBuf)
    (poll : Option (RaBuf → ℕ → Bool)) (pool : RaBufPool) (params : RaBufParams)
    (buf : RaBuf)
    (h0 : params.initial_data = false)
    (h1 : ra_buf_params_compatible params pool.current_params = true)
    (h2 : pool.buffers.isEmpty = false)
    (h3 : pool.index ≤ pool.buffers.length)
    (h4 : ra_buf_poll poll (pool.buffers.getD pool.index ⟨0, false⟩) 0 = true)
    (h5 : ra_buf_create limits impl pool.current_params = .ok (some buf)) :
    ra_buf_pool_get limits impl poll pool params =
      .ok (some (buf,
        { current_params := pool.current_params,
          buffers := insertAt pool.index buf pool.buffers,
          index := (pool.index + 1) % (pool.buffers.length + 1) })) ∧
    (insertAt pool.index buf pool.buffers).length = pool.buffers.length + 1 := by
  have hlen := insertAt_length pool.buffers pool.index buf
  have hgetd := insertAt_getD pool.buffers pool.index buf ⟨0, false⟩ h3
  refine ⟨?_, hlen⟩
  unfold ra_buf_pool_get
  rw [h0]
  simp only [Bool.false_eq_true, if_false, h1, not_true, if_neg (not_not_intro rfl)]
  rw [if_neg (by simp [h2])]
  unfold ra_buf_pool_get_avail
  rw [h4]
  simp only [if_true]
  unfold ra_buf_pool_grow
  rw [h5]
  show RaResult.ok (some ((insertAt pool.index buf pool.buffers).getD pool.index ⟨0, false⟩,
    (⟨pool.current_params, insertAt pool.index buf pool.buffers,
      (pool.index + 1) % (insertAt pool.index buf pool.buffers).length⟩ : RaBufPool))) = _
  rw [hgetd, hlen]

/-- The concrete pool-reuse scenario of the spec, step data for the C8
witness. -/
def C8_limits : RaLimits := ⟨64, 64, 64⟩

def C8_impl : RaBufParams → Option RaBuf := fun _ => some ⟨7, true⟩

def C8_params : RaBufParams :=
  { type := .tex_transfer, size := 16, host_mapped := false,
    host_writable := true, host_readable := false, initial_data := false }

def C8_pool1 : RaBufPool := ⟨C8_params, [⟨7, true⟩], 0⟩

theorem C8_pool_busy_grow_witness :
    ra_buf_pool_get C8_limits C8_impl none ra_buf_pool_uninit C8_params =
      .ok (some (⟨7, true⟩, C8_pool1)) ∧
    (ra_buf_pool_get C8_limits C8_impl (some fun _ _ => true) C8_pool1 C8_params =
        .ok (some (⟨7, true⟩,
          { current_params := C8_pool1.current_params,
            buffers := insertAt C8_pool1.index ⟨7, true⟩ C8_pool1.buffers,
            index := (C8_pool1.index + 1) % (C8_pool1.buffers.length + 1) })) ∧
      (insertAt C8_pool1.index ⟨7, true⟩ C8_pool1.buffers).length =
        C8_pool1.buffers.length + 1) :=
  ⟨by decide,
   C8_pool_busy_grow C8_limits C8_impl (some fun _ _ => true) C8_pool1 C8_params
     ⟨7, true⟩ rfl (by decide) (by decide) (by decide) rfl (by decide)⟩

/-- C9 failing input: a valid 16-byte transfer-buffer request against a
backend whose buf_create refuses the allocation (returns NULL). -/
def C9_limits : RaLimits := ⟨64, 64, 64⟩

def C9_params : RaBufParams :=
  { type := .tex_transfer, size := 16, host_mapped := false,
    host_writable := false, host_readable := false, initial_data := false }

/-- C9 (code bug): when the backend buf_create returns NULL for a valid
request, ra_buf_create does not return that NULL to the caller — the
statement assert(buf->data || !params->host_mapped) dereferences the NULL
result first, which is fatal under the active-assert semantics the RA uses
for its checks. -/
theorem C9_buf_create_null_is_fatal :
    ra_buf_create C9_limits (fun _ => none) C9_params = RaResult.fatal ∧
    ra_buf_create C9_limits (fun _ => none) C9_params ≠ RaResult.ok none := by
  decide

end Libplacebo
